import Mathlib

/-!
Verification development for the z-quantum-core circuit layer.

This file embeds, in Lean, the data model and the operations of
`src/python/zquantum/core/circuit/_circuit.py` together with the parts of the
circuit package that the repository snapshot does not contain under `src/`
(`_gate.py`, `_qubit.py`, `_gateset.py`, `conversions/symbolic_expressions.py`);
the missing parts are modelled from the specification and are marked as such in
their doc comments.  Numbers are modelled as rationals (`ℚ`): none of the
verified properties depends on floating-point rounding.
-/

set_option autoImplicit false

namespace ZQuantum

/-! ## Expression tree model (conversions/symbolic_expressions.py)

The implementation module `symbolic_expressions.py` is absent from the source
snapshot (only its test file is present), so the definitions below are modelled
from the specification, section 4.1, and from the behaviour pinned down by
`symbolic_expressions_test.py`. -/

/-- Modelled from the spec: a native sympy expression — a tree whose internal
nodes are n-ary `Add` and `Mul` and whose leaves are symbols and integer
literals (rationals and the imaginary unit are not needed for the claims). -/
inductive SExpr where
  | sym (s : String)
  | intLit (n : Int)
  | addN (args : List SExpr)
  | mulN (args : List SExpr)
  deriving Repr

/-- Modelled from the spec: the portable expression tree — `Symbol`, a numeric
literal, or `FunctionCall(op, args)`. -/
inductive Expr where
  | sym (s : String)
  | lit (n : Int)
  | call (op : String) (args : List Expr)
  deriving Repr

/-- Modelled from the spec: a term is a negation iff it is a `Mul` whose
leading coefficient is the literal `-1` (the form sympy uses to encode
subtraction, e.g. `x - y` arrives as `Add(x, Mul(-1, y))`). -/
def SExpr.is_negation : SExpr → Bool
  | .mulN (.intLit (-1) :: _ :: _) => true
  | _ => false

/-- Modelled from the spec: the term negated by a negation node — `Mul(-1, x)`
strips to `x`, and `Mul(-1, x, y, ...)` strips to the product of the remaining
factors. -/
def SExpr.strip_negation : SExpr → SExpr
  | .mulN (.intLit (-1) :: [r]) => r
  | .mulN (.intLit (-1) :: rest) => .mulN rest
  | e => e

/-- Modelled from the spec: an `Add` node is an addition of a negation iff it
has exactly two children and exactly one of them is a negation.  (The test file
notes that `x - 1`, which sympy renders as `Add(-1, x)` with no `Mul(-1, ·)`
child, is deliberately not recognized.) -/
def is_addition_of_negation : SExpr → Bool
  | .addN [a, b] => a.is_negation != b.is_negation
  | _ => false

/-- Modelled from the spec: `expression_tree_from_sympy`, the purely structural
builder turning a native sympy expression into an expression tree, recognizing
two-child additions of a negation as `sub` nodes (the two-child `Add` case is
split out of the generic n-ary case to make the recursion structural; its
guard chain is exactly `is_addition_of_negation`).  Division detection on
`Mul` nodes is part of the real module but is not needed by any claim; `Mul`
nodes convert to `mul` calls here. -/
def expression_tree_from_sympy : SExpr → Expr
  | .sym s => .sym s
  | .intLit n => .lit n
  | .addN [a, b] =>
      if b.is_negation && !a.is_negation then
        .call "sub" [expression_tree_from_sympy a,
                     expression_tree_from_sympy b.strip_negation]
      else if a.is_negation && !b.is_negation then
        .call "sub" [expression_tree_from_sympy b,
                     expression_tree_from_sympy a.strip_negation]
      else
        .call "add" [expression_tree_from_sympy a, expression_tree_from_sympy b]
  | .addN args => .call "add" (args.attach.map fun x => expression_tree_from_sympy x.1)
  | .mulN args => .call "mul" (args.attach.map fun x => expression_tree_from_sympy x.1)
decreasing_by
  all_goals simp_wf
  all_goals try
    (have hs : sizeOf b.strip_negation ≤ sizeOf b := by
        unfold SExpr.strip_negation
        split
        all_goals simp
        all_goals omega
     simp_all
     omega)
  all_goals try
    (have hs : sizeOf a.strip_negation ≤ sizeOf a := by
        unfold SExpr.strip_negation
        split
        all_goals simp
        all_goals omega
     simp_all
     omega)
  all_goals (have hm := List.sizeOf_lt_of_mem x.2; simp_all; omega)

/-! ## Core IR: Qubit, Gate, Circuit (`_qubit.py`, `_gate.py`, `_circuit.py`)

`_qubit.py`, `_gate.py` and `_gateset.py` are absent from the source snapshot;
their definitions below are modelled from the specification (sections 3 and 6)
and from how `_circuit.py` uses them.  `Circuit` itself is embedded from
`_circuit.py`. -/

/-- Modelled from the spec: the optional framework-specific provenance carried
by a canonical Qubit (grid row/col or line coordinate for cirq, register slot
for pyquil/qiskit); a Qubit built directly from an index carries none. -/
inductive QubitInfo where
  | noProvenance
  | pyquil (num : Nat)
  | cirqLine (x : Int)
  | cirqGrid (row col : Int)
  | qiskit (num : Nat)
  deriving Repr, DecidableEq

/-- Modelled from the spec: a canonical qubit — a non-negative integer index
plus optional provenance metadata.  The bare constructor `Qubit(index)` of
`_qubit.py` corresponds to `⟨i, .noProvenance⟩`. -/
structure Qubit where
  index : Nat
  info : QubitInfo := .noProvenance
  deriving Repr, DecidableEq

/-- Modelled from the spec: `Qubit.__str__`; the string form of a qubit is
determined by its index. -/
def Qubit.str (q : Qubit) : String := "qubit " ++ toString q.index

/-- Modelled from the spec: a gate parameter — a numeric literal or a symbolic
(sympy) parameter.  Compound symbolic expressions are handled by the
expression-tree component and are not needed for the circuit-level claims, so
a symbolic parameter is modelled as an atomic symbol. -/
inductive Param where
  | num (x : ℚ)
  | symb (s : String)
  deriving Repr, DecidableEq

/-- Whether a gate parameter is a plain numeric (non-symbolic) literal. -/
def Param.is_numeric : Param → Bool
  | .num _ => true
  | .symb _ => false

/-- Modelled from the spec: a canonical gate — name, ordered target qubits and
ordered parameter list.  The optional matrix definition of UNIQUE gates plays
no role in any claim and is omitted. -/
structure Gate where
  name : String
  qubits : List Qubit
  params : List Param
  deriving Repr, DecidableEq

/-- Modelled from the spec (`_gateset.py` is absent): the COMMON catalog of
gates natively expressible in every supported framework. -/
def COMMON_GATES : List String :=
  ["I", "X", "Y", "Z", "H", "S", "T", "RX", "RY", "RZ",
   "CNOT", "CZ", "CPHASE", "SWAP"]

/-- Modelled from the spec (`_gateset.py` is absent): the UNIQUE catalog.
`MEASURE` and `BARRIER` are listed here because `add_gate_to_pyquil_program`
in `_circuit.py` handles them inside its `gate.name in UNIQUE_GATES` branch,
which would be unreachable were they COMMON. -/
def UNIQUE_GATES : List String :=
  ["ZXZ", "RH", "XX", "YY", "ZZ", "U1ex", "U2ex", "MEASURE", "BARRIER"]

/-- Modelled from the spec: `Gate.symbolic_params` — the symbolic parameters
of the gate, in parameter order. -/
def Gate.symbolic_params (g : Gate) : List String :=
  g.params.filterMap fun p =>
    match p with
    | .num _ => Option.none
    | .symb s => some s

/-- Modelled from the spec: substituting a symbols map into one parameter;
a symbol present in the map becomes the mapped number, any other parameter is
left unchanged. -/
def Param.evaluate (p : Param) (symbols_map : List (String × ℚ)) : Param :=
  match p with
  | .num x => .num x
  | .symb s =>
      match symbols_map.find? (fun kv => kv.1 == s) with
      | some kv => .num kv.2
      | Option.none => .symb s

/-- Modelled from the spec: `Gate.evaluate` — a new Gate with the symbols map
substituted into every parameter. -/
def Gate.evaluate (g : Gate) (symbols_map : List (String × ℚ)) : Gate :=
  { g with params := g.params.map (Param.evaluate · symbols_map) }

/-- Aggregate circuit metadata (`self.info` of `_circuit.py`): holds the
originating-framework label. -/
structure CInfo where
  label : Option String
  deriving Repr, DecidableEq

/-- The canonical circuit of `_circuit.py`.  The fields mirror `__init__`
(name, gate list, qubit list, info); the `qubitsRef`/`infoRef` fields
instrument Python object identity of the `qubits` list and the `info`
dictionary, so that sharing-by-reference (as opposed to copying) is
expressible: an operation that reuses the same Python object preserves the
token, one that builds a fresh object does not promise anything about it. -/
structure Circuit where
  name : String := "Unnamed"
  gates : List Gate := []
  qubits : List Qubit := []
  info : CInfo := ⟨Option.none⟩
  qubitsRef : Nat := 0
  infoRef : Nat := 0
  deriving Repr, DecidableEq

/-- Embeds `Circuit.symbolic_params`: the symbolic parameters of all gates in
chronological order, first occurrence kept, duplicates dropped. -/
def Circuit.symbolic_params (c : Circuit) : List String :=
  c.gates.foldl
    (fun acc g =>
      g.symbolic_params.foldl
        (fun acc' p => if p ∈ acc' then acc' else acc' ++ [p]) acc)
    []

/-- Modelled from the spec: `Gate.__eq__` — equal gate name, equal operand
qubit sequence by string form, equal parameter sequence. -/
def Gate.gate_eq (g1 g2 : Gate) : Bool :=
  g1.name == g2.name
  && g1.qubits.map Qubit.str == g2.qubits.map Qubit.str
  && g1.params == g2.params

/-- Embeds `Circuit.__eq__` (lines 109-125): equal name, equal qubit count
and pairwise equal qubit string forms, equal gate count and pairwise equal
gates. -/
def Circuit.circuit_eq (a b : Circuit) : Bool :=
  a.name == b.name
  && a.qubits.length == b.qubits.length
  && (List.zip a.qubits b.qubits).all (fun qq => Qubit.str qq.1 == Qubit.str qq.2)
  && a.gates.length == b.gates.length
  && (List.zip a.gates b.gates).all (fun gg => Gate.gate_eq gg.1 gg.2)

/-- Embeds `Circuit.__add__`: collect the set of qubit indices of both
operands, build a fresh circuit (hence name "Unnamed" and a fresh default
info), populate its qubit list with newly constructed `Qubit(index)` objects,
and concatenate the gate lists.  Python's `set` iterates in an unspecified
order; it is modelled by `List.dedup`, and no verified claim depends on the
resulting order. -/
def Circuit.add (a b : Circuit) : Circuit :=
  let qubit_indices : List Nat :=
    (a.qubits.map (·.index) ++ b.qubits.map (·.index)).dedup
  { name := "Unnamed"
    gates := a.gates ++ b.gates
    qubits := qubit_indices.map (fun i => { index := i })
    info := ⟨Option.none⟩
    qubitsRef := 0
    infoRef := 0 }

/-- Embeds `Circuit.evaluate`.  The Python method emits a `warnings.warn`
side effect and returns the new circuit; the embedding makes the warning
channel explicit and returns the pair (warning raised?, new circuit).  The
new circuit shares `qubits` and `info` with the receiver by reference (the
source assigns `new_circuit.qubits = self.qubits` and
`new_circuit.info = self.info`), which the reference tokens record. -/
def Circuit.evaluate (c : Circuit) (symbols_map : List (String × ℚ)) :
    Bool × Circuit :=
  let all_symbols_in_map : List String := symbols_map.map Prod.fst
  let warned : Bool :=
    all_symbols_in_map.any (fun s => !(c.symbolic_params.contains s))
  (warned,
   { name := c.name
     qubits := c.qubits
     qubitsRef := c.qubitsRef
     info := c.info
     infoRef := c.infoRef
     gates := c.gates.map (Gate.evaluate · symbols_map) })

/-! ## Serialization (`to_dict` / `from_dict`) -/

/-- Modelled from the spec: the schema version prefix of `utils.py` (absent
from the snapshot); its exact value is irrelevant to every claim. -/
def SCHEMA_VERSION : String := "zapata-v1"

/-- Modelled from the spec: a serialized gate parameter — a native number, a
stringified symbolic expression (when `serialize_params` is set), or the raw
sympy object (when it is not). -/
inductive ParamSer where
  | num (x : ℚ)
  | str (s : String)
  | sympyObj (s : String)
  deriving Repr, DecidableEq

/-- Modelled from the spec: the dictionary produced by `Qubit.to_dict` —
schema tag, index, and the provenance info. -/
structure QubitDict where
  schema : String
  index : Nat
  info : QubitInfo
  deriving Repr, DecidableEq

/-- Modelled from the spec: the dictionary produced by `Gate.to_dict` —
schema tag, gate name, operand qubit indices, serialized parameters. -/
structure GateDict where
  schema : String
  name : String
  qubits : List Nat
  params : List ParamSer
  deriving Repr, DecidableEq

/-- The dictionary produced by `Circuit.to_dict` (lines 268-299 of
`_circuit.py`): schema tag, name, optional gate-dict list, optional
qubit-dict list, and the info dictionary. -/
structure CircuitDict where
  schema : String
  name : String
  gates : Option (List GateDict)
  qubits : Option (List QubitDict)
  info : CInfo
  deriving Repr, DecidableEq

/-- Modelled from the spec: `Qubit.to_dict`. -/
def Qubit.to_dict (q : Qubit) : QubitDict :=
  { schema := SCHEMA_VERSION ++ "-qubit", index := q.index, info := q.info }

/-- Modelled from the spec: `Qubit.from_dict` — reconstructs the qubit from
its index and stored info. -/
def Qubit.from_dict (d : QubitDict) : Qubit :=
  { index := d.index, info := d.info }

/-- Modelled from the spec: serializing one gate parameter; with
`serialize_params` set a symbolic parameter becomes its string form,
otherwise the sympy object is stored as-is. -/
def Param.serialize (serialize_params : Bool) (p : Param) : ParamSer :=
  match p with
  | .num x => .num x
  | .symb s => if serialize_params then .str s else .sympyObj s

/-- Modelled from the spec: deserializing one gate parameter; a string
re-parses (sympifies) to the symbolic expression it prints. -/
def ParamSer.deserialize (p : ParamSer) : Param :=
  match p with
  | .num x => .num x
  | .str s => .symb s
  | .sympyObj s => .symb s

/-- Modelled from the spec: `Gate.to_dict(serialize_params)` — name, operand
qubit indices, serialized parameters. -/
def Gate.to_dict (g : Gate) (serialize_params : Bool) : GateDict :=
  { schema := SCHEMA_VERSION ++ "-gate"
    name := g.name
    qubits := g.qubits.map (·.index)
    params := g.params.map (Param.serialize serialize_params) }

/-- Modelled from the spec: `Gate.from_dict` — rebuilds the gate, creating a
fresh bare `Qubit(index)` for each stored operand index. -/
def Gate.from_dict (d : GateDict) : Gate :=
  { name := d.name
    qubits := d.qubits.map (fun i => { index := i })
    params := d.params.map ParamSer.deserialize }

/-- Embeds `Circuit.to_dict` (lines 268-299).  The source emits `None` for
the gates/qubits entries only when the corresponding attribute is Python
`None`, which the list-valued embedding of `Circuit` cannot produce, so both
entries are always `some` here. -/
def Circuit.to_dict (c : Circuit) (serialize_gate_params : Bool) : CircuitDict :=
  { schema := SCHEMA_VERSION ++ "-circuit"
    name := c.name
    gates := some (c.gates.map (Gate.to_dict · serialize_gate_params))
    qubits := some (c.qubits.map Qubit.to_dict)
    info := c.info }

/-- Embeds `Circuit.from_dict` (lines 352-375): construct `cls(name=...)`
(which yields the default fields of `__init__`), then replace gates, qubits
and info from the dictionary.  A `None` entry leaves the Python attribute as
`None`; the list-valued embedding renders that case as the empty list (it is
never reached from `to_dict` output). -/
def Circuit.from_dict (d : CircuitDict) : Circuit :=
  { name := d.name
    gates :=
      match d.gates with
      | some gs => gs.map Gate.from_dict
      | Option.none => []
    qubits :=
      match d.qubits with
      | some qs => qs.map Qubit.from_dict
      | Option.none => []
    info := d.info
    qubitsRef := 0
    infoRef := 0 }

/-! ## cirq → pyquil conversion: the YY decomposition (`cirq2pyquil`)

`cirq2pyquil.add_to_program` (lines 753-820 of `_circuit.py`) decomposes a
`YYPowGate` operation into a list `ops` of elementary cirq operations and
re-emits each element recursively.  The elements are all elementary, so the
decomposition sequence itself is what determines the emitted gates; it is
embedded below.  Angles that the source writes as `exponent * pi` are carried
as the rational multiple `t` of π. -/

/-- An elementary cirq operation appearing in the two-qubit decomposition
sequences of `cirq2pyquil.add_to_program`.  `zPow q t` is `cirq.Z(q) ** t`
and `rzPiMul t q` is `cirq.rz(t * π)(q)`. -/
inductive CirqDecompOp where
  | zPow (q : Nat) (t : ℚ)
  | hGate (q : Nat)
  | cnot (q1 q2 : Nat)
  | rzPiMul (t : ℚ) (q : Nat)
  deriving Repr, DecidableEq

/-- Embeds the `ops` list of the `cirq.YYPowGate` branch of
`cirq2pyquil.add_to_program` (lines 791-807): the decomposition sequence
emitted for a YY-power operation on `(q1, q2)` with exponent `t`. -/
def cirq2pyquil_yy_ops (q1 q2 : Nat) (t : ℚ) : List CirqDecompOp :=
  [ .zPow q1 (1/2), .zPow q2 (1/2),
    .hGate q1, .hGate q2,
    .cnot q1 q2,
    .rzPiMul t q2,
    .cnot q1 q2,
    .hGate q1, .hGate q2,
    .zPow q1 (-(1/2)), .zPow q2 (-(1/2)) ]

/-- The YY decomposition sequence as the specification words it (S† first,
implemented as Z^-0.5, and S last, implemented as Z^0.5); stated for
comparison against `cirq2pyquil_yy_ops`. -/
def spec_yy_ops (q1 q2 : Nat) (t : ℚ) : List CirqDecompOp :=
  [ .zPow q1 (-(1/2)), .zPow q2 (-(1/2)),
    .hGate q1, .hGate q2,
    .cnot q1 q2,
    .rzPiMul t q2,
    .cnot q1 q2,
    .hGate q1, .hGate q2,
    .zPow q1 (1/2), .zPow q2 (1/2) ]

/-! ## cirq import: qubit identity matching (`Circuit.from_cirq.qubit_in_list`) -/

/-- A native cirq qubit: a grid qubit (row, col) or a line qubit (x). -/
inductive CirqQubit where
  | grid (row col : Int)
  | line (x : Int)
  deriving Repr, DecidableEq

/-- The matching key returned by `qubit_in_list`: a (row, col) pair for grid
qubits or a linear coordinate for line qubits. -/
inductive CirqQubitKey where
  | gridKey (row col : Int)
  | lineKey (x : Int)
  deriving Repr, DecidableEq

/-- Outcome of one `qubit_in_list` call: a match with its key, no match, or
one of the two possible runtime errors — the explicit `TypeError` the source
raises for mismatched qubit kinds, or the `AttributeError` produced when the
line-qubit branch evaluates `q.x` on a grid qubit. -/
inductive CirqLookupResult where
  | found (key : CirqQubitKey)
  | notFound
  | typeMismatchError
  | attributeError
  deriving Repr, DecidableEq

/-- Embeds the body of the `for q in qubitlist` loop of `qubit_in_list` in
`Circuit.from_cirq` (lines 456-481), faithfully to the source: the second
branch tests `isinstance(qubit, cirq.LineQubit)` twice (instead of testing
`q`), so a line-qubit operand compared against a grid qubit in the list
enters the line-qubit branch and evaluates `q.x`, which a grid qubit does not
have. -/
def cirq_qubit_step (qubit q : CirqQubit) : CirqLookupResult :=
  match qubit, q with
  | .grid r c, .grid r' c' =>
      if r = r' ∧ c = c' then .found (.gridKey r' c') else .notFound
  | .line x, .line x' =>
      if x = x' then .found (.lineKey x') else .notFound
  | .line _, .grid _ _ => .attributeError
  | .grid _ _, .line _ => .typeMismatchError

/-- Embeds `qubit_in_list` of `Circuit.from_cirq`: scan the list of already
seen cirq qubits, stopping at the first match or error. -/
def cirq_qubit_in_list (qubit : CirqQubit) : List CirqQubit → CirqLookupResult
  | [] => .notFound
  | q :: rest =>
      match cirq_qubit_step qubit q with
      | .found key => .found key
      | .notFound => cirq_qubit_in_list qubit rest
      | .typeMismatchError => .typeMismatchError
      | .attributeError => .attributeError

/-! ## Export to pyquil (`add_gate_to_pyquil_program`, `Circuit.to_pyquil`) -/

/-- A pyquil program instruction produced during export: a gate application
(native or custom) or a measurement into a classical register slot. -/
inductive PyquilInstr where
  | gateApp (name : String) (params : List Param) (qubits : List Nat)
  | measureInstr (q : Nat) (reg : String)
  deriving Repr, DecidableEq

/-- A pyquil `Program` as used by the exporter: the list of custom gate
definitions registered so far (by name, in registration order — pyquil's
`Program.defined_gates`), the classical register declarations, and the
instruction sequence. -/
structure PyquilProgram where
  defined_gates : List String := []
  declarations : List String := []
  instructions : List PyquilInstr := []
  deriving Repr, DecidableEq

/-- Appends an application of the gate to the program (`program + instr`). -/
def PyquilProgram.addInstr (p : PyquilProgram) (i : PyquilInstr) : PyquilProgram :=
  { p with instructions := p.instructions ++ [i] }

/-- Registers a custom gate definition (`program + def_gate`). -/
def PyquilProgram.addDef (p : PyquilProgram) (n : String) : PyquilProgram :=
  { p with defined_gates := p.defined_gates ++ [n] }

/-- Embeds `add_gate_to_pyquil_program` (lines 829-992 of `_circuit.py`).
A COMMON gate maps to its native pyquil application (`gate.to_pyquil()`,
modelled from the spec as the 1:1 operator mapping).  A UNIQUE gate follows
the branch for its name: `ZXZ`, `RH`, `XX`, `YY` and `ZZ` unconditionally
register their definition and append an application; `U1ex` appends the
application and registers the definition only when `"U1ex"` is not among the
program's already defined gates; `U2ex` does the same check but, when the
definition is missing, line 984 references `u1ex_def`, a name never bound in
that code path — an `UnboundLocalError` at runtime, rendered as `.error`.
A gate in neither catalog falls off the end of the Python function (returning
`None`, which crashes the export on the next step), also rendered as
`.error`.  Operand qubit positions are read with a default of 0; a Python
`IndexError` from a malformed gate is not modelled. -/
def add_gate_to_pyquil_program (p : PyquilProgram) (g : Gate) :
    Except String PyquilProgram :=
  let idx : Nat → Nat := fun k => ((g.qubits.map (·.index)).get? k).getD 0
  if g.name ∈ COMMON_GATES then
    .ok (p.addInstr (.gateApp g.name g.params (g.qubits.map (·.index))))
  else if g.name ∈ UNIQUE_GATES then
    if g.name = "ZXZ" then
      .ok ((p.addDef "ZXZ").addInstr (.gateApp "ZXZ" g.params [idx 0]))
    else if g.name = "RH" then
      .ok ((p.addDef "RH").addInstr (.gateApp "RH" g.params [idx 0]))
    else if g.name = "XX" then
      .ok ((p.addDef "XX").addInstr (.gateApp "XX" g.params [idx 0, idx 1]))
    else if g.name = "YY" then
      .ok ((p.addDef "YY").addInstr (.gateApp "YY" g.params [idx 0, idx 1]))
    else if g.name = "ZZ" then
      .ok ((p.addDef "ZZ").addInstr (.gateApp "ZZ" g.params [idx 0, idx 1]))
    else if g.name = "U1ex" then
      let applied := p.addInstr (.gateApp "U1ex" g.params [idx 0, idx 1])
      if "U1ex" ∈ p.defined_gates then .ok applied
      else .ok (applied.addDef "U1ex")
    else if g.name = "U2ex" then
      let applied := p.addInstr (.gateApp "U2ex" g.params [idx 0, idx 1])
      if "U2ex" ∈ p.defined_gates then .ok applied
      else .error "UnboundLocalError: u1ex_def referenced before assignment"
    else if g.name = "MEASURE" then
      let reg_name := "r" ++ toString (idx 0)
      .ok ({ p with declarations := p.declarations ++ [reg_name]
           }.addInstr (.measureInstr (idx 0) reg_name))
    else -- "BARRIER": no pyquil equivalent, program returned unchanged
      .ok p
  else
    .error ("gate name in neither catalog, function returns None: " ++ g.name)

/-- Embeds `Circuit.to_pyquil` (lines 181-188): fold
`add_gate_to_pyquil_program` over the gate sequence starting from a fresh
`Program()`. -/
def Circuit.to_pyquil (c : Circuit) : Except String PyquilProgram :=
  c.gates.foldlM add_gate_to_pyquil_program {}

/-! ## Import from pyquil and qiskit (`from_pyquil`, `from_qiskit`)

The importer embeddings instrument canonical-qubit allocation with a `uid`
field recording Python object identity: each `Qubit` constructed while
importing gets a fresh uid, so "the same object instance" is expressible as
equality including `uid`, while distinct allocations with equal indices stay
distinguishable. -/

/-- A canonical qubit allocated during an import, instrumented with its
allocation identity.  `index` is the canonical index (for qiskit it is the
value stored in `info["num"]`). -/
structure TrackedQubit where
  uid : Nat
  index : Nat
  deriving Repr, DecidableEq

/-- A canonical gate built during an import: name plus the operand qubits in
native order, referencing tracked qubit objects. -/
structure TrackedGate where
  name : String
  qubits : List TrackedQubit
  deriving Repr, DecidableEq

/-- One native pyquil gate instruction: gate name, parameters, operand qubit
indices (a pyquil qubit is identified by its integer index, the only datum
`from_pyquil` reads). -/
structure PyquilGateInstr where
  name : String
  params : List ℚ
  qubits : List Nat
  deriving Repr, DecidableEq

/-- The state threaded through `Circuit.from_pyquil` (lines 377-429):
`seen` is `_pyquil_qubits` (native qubits already encountered, by index),
`qubits` is `_qubits`, `gates` is `_gatelist`, and `fresh` is the allocation
counter for uids. -/
structure PyquilImportState where
  seen : List Nat := []
  qubits : List TrackedQubit := []
  gates : List TrackedGate := []
  fresh : Nat := 0
  deriving Repr, DecidableEq

/-- Embeds the per-operand body of the qubit loop of `from_pyquil`: look the
native qubit up in `_pyquil_qubits` by index (`qubit_in_list`); on a miss,
record it and allocate a fresh canonical `Qubit` (appended to `_qubits`); on
a hit, return the first previously created canonical qubit with that index.
The `getD` default is unreachable: a hit guarantees the search succeeds. -/
def pyquil_resolve_qubit (st : PyquilImportState) (i : Nat) :
    PyquilImportState × TrackedQubit :=
  if st.seen.contains i then
    (st, (st.qubits.find? (fun q => q.index == i)).getD ⟨0, 0⟩)
  else
    let q : TrackedQubit := ⟨st.fresh, i⟩
    ({ st with seen := st.seen ++ [i]
               qubits := st.qubits ++ [q]
               fresh := st.fresh + 1 }, q)

/-- One step of the operand loop of `from_pyquil`: resolve the operand and
append the resolved canonical qubit to `_gatequbits`. -/
def pyquil_qubit_step (acc : PyquilImportState × List TrackedQubit) (i : Nat) :
    PyquilImportState × List TrackedQubit :=
  let r := pyquil_resolve_qubit acc.1 i
  (r.1, acc.2 ++ [r.2])

/-- Embeds one iteration of the gate loop of `from_pyquil`: resolve every
operand in order, then append the converted gate referencing the resolved
canonical qubits. -/
def pyquil_import_gate (st : PyquilImportState) (g : PyquilGateInstr) :
    PyquilImportState :=
  let res := g.qubits.foldl pyquil_qubit_step (st, [])
  { res.1 with gates := res.1.gates ++ [⟨g.name, res.2⟩] }

/-- Embeds `Circuit.from_pyquil`: process the program's gate instructions in
order starting from empty state. -/
def from_pyquil (prog : List PyquilGateInstr) : PyquilImportState :=
  prog.foldl pyquil_import_gate {}

/-- A native qiskit qubit: the register it belongs to and its slot in that
register.  Native equality (`qubit == q`) compares both components. -/
structure QiskitQubit where
  reg : Nat
  idx : Nat
  deriving Repr, DecidableEq

/-- One native qiskit instruction: gate name plus operand qubits
(`gate_data[0].name`, `gate_data[1]`). -/
structure QiskitInstr where
  name : String
  qubits : List QiskitQubit
  deriving Repr, DecidableEq

/-- The state threaded through `Circuit.from_qiskit` (lines 508-569):
`seen` is `_qiskit_qubits` (native qubit objects already encountered). -/
structure QiskitImportState where
  seen : List QiskitQubit := []
  qubits : List TrackedQubit := []
  gates : List TrackedGate := []
  fresh : Nat := 0
  deriving Repr, DecidableEq

/-- Embeds the per-operand body of the qubit loop of `from_qiskit`: membership
in `_qiskit_qubits` uses the native qubit's own equality (register and slot);
on a hit the canonical qubit is recovered by searching `_qubits` for the
first entry whose `info["num"]` equals the native `qubit.index` — the slot
only, not the register. -/
def qiskit_resolve_qubit (st : QiskitImportState) (nq : QiskitQubit) :
    QiskitImportState × TrackedQubit :=
  if st.seen.contains nq then
    (st, (st.qubits.find? (fun q => q.index == nq.idx)).getD ⟨0, 0⟩)
  else
    let q : TrackedQubit := ⟨st.fresh, nq.idx⟩
    ({ st with seen := st.seen ++ [nq]
               qubits := st.qubits ++ [q]
               fresh := st.fresh + 1 }, q)

/-- One step of the operand loop of `from_qiskit`. -/
def qiskit_qubit_step (acc : QiskitImportState × List TrackedQubit)
    (nq : QiskitQubit) : QiskitImportState × List TrackedQubit :=
  let r := qiskit_resolve_qubit acc.1 nq
  (r.1, acc.2 ++ [r.2])

/-- Embeds one iteration of the instruction loop of `from_qiskit`. -/
def qiskit_import_gate (st : QiskitImportState) (g : QiskitInstr) :
    QiskitImportState :=
  let res := g.qubits.foldl qiskit_qubit_step (st, [])
  { res.1 with gates := res.1.gates ++ [⟨g.name, res.2⟩] }

/-- Embeds `Circuit.from_qiskit`: process the circuit's instructions in order
starting from empty state. -/
def from_qiskit (circ : List QiskitInstr) : QiskitImportState :=
  circ.foldl qiskit_import_gate {}

/-- Inverts the sign of the exponent of every Z-power operation in a
decomposition sequence (exchanging the roles of S and S†), leaving every
other operation unchanged. -/
def invert_z_powers (op : CirqDecompOp) : CirqDecompOp :=
  match op with
  | .zPow q t => .zPow q (-t)
  | other => other

/-- Invariant maintained by the `from_pyquil` import loop: the canonical
qubit indices mirror the seen native qubits in order, no native qubit was
recorded twice, uids were allocated sequentially, and every gate operand
references a canonical qubit present in the circuit's qubit list. -/
def PyquilImportState.WF (st : PyquilImportState) : Prop :=
  st.qubits.map (·.index) = st.seen
  ∧ st.seen.Nodup
  ∧ st.qubits.map (·.uid) = List.range st.fresh
  ∧ ∀ g ∈ st.gates, ∀ q ∈ g.qubits, q ∈ st.qubits

/-- Invariant maintained by the `from_qiskit` import loop relative to a
universe `U` of native qubits with pairwise distinct slot indices: canonical
indices mirror the slots of the seen native qubits, the recorded slots are
distinct, uids sequential, gate operands reference listed qubits, and every
seen native qubit belongs to `U`. -/
def QiskitImportState.WF (U : List QiskitQubit) (st : QiskitImportState) : Prop :=
  st.qubits.map (·.index) = st.seen.map (·.idx)
  ∧ (st.seen.map (·.idx)).Nodup
  ∧ st.qubits.map (·.uid) = List.range st.fresh
  ∧ (∀ g ∈ st.gates, ∀ q ∈ g.qubits, q ∈ st.qubits)
  ∧ ∀ nq ∈ st.seen, nq ∈ U

/-- The native qubits appearing in a qiskit circuit, in instruction and
operand order. -/
def qiskit_circuit_qubits (circ : List QiskitInstr) : List QiskitQubit :=
  (circ.map (·.qubits)).flatten

/-- The deduplication-and-sharing property of an imported circuit: no
canonical index occurs twice in the qubit list, every gate operand references
a qubit present in that list, and any two gate operand positions carrying the
same index reference the same qubit object (same allocation, uid included). -/
def DedupSharing (qubits : List TrackedQubit) (gates : List TrackedGate) : Prop :=
  (qubits.map (·.index)).Nodup
  ∧ (∀ tg ∈ gates, ∀ q ∈ tg.qubits, q ∈ qubits)
  ∧ ∀ tg ∈ gates, ∀ tg' ∈ gates, ∀ q ∈ tg.qubits, ∀ q' ∈ tg'.qubits,
      q.index = q'.index → q = q'

/-! ## Theorems -/

/-- C2 counterexample: the YY-decomposition sequence emitted by
`cirq2pyquil.add_to_program` does not begin with `Z^-0.5` (S†) and end with
`Z^0.5` (S) as the claim states; already on qubits (0, 1) with exponent 1 the
emitted sequence differs from the claimed one. -/
theorem yy_ops_not_spec_order :
    cirq2pyquil_yy_ops 0 1 1 ≠ spec_yy_ops 0 1 1 := by
  norm_num [cirq2pyquil_yy_ops, spec_yy_ops]

/-- C2 amended: for every YY(θ) operation on (q1, q2), the emitted
decomposition sequence is S(q1), S(q2) (implemented as Z^0.5), H(q1), H(q2),
CNOT(q1,q2), RZ(θ)(q2), CNOT(q1,q2), H(q1), H(q2), then S†(q1), S†(q2)
(implemented as Z^-0.5) — exactly the claimed sequence with every Z-power
inverted (S and S† exchanged). -/
theorem yy_ops_s_first (q1 q2 : Nat) (t : ℚ) :
    cirq2pyquil_yy_ops q1 q2 t = (spec_yy_ops q1 q2 t).map invert_z_powers := by
  simp [cirq2pyquil_yy_ops, spec_yy_ops, invert_z_powers]

/-- C4: the sum of two circuits has the two gate lists concatenated in order,
and its qubit list carries each qubit index of either operand exactly once —
the union of both operands' index sets, the right operand's set unioned in
rather than overwriting. -/
theorem add_concat_gates_union_qubits (a b : Circuit) :
    (a.add b).gates = a.gates ++ b.gates
    ∧ ((a.add b).qubits.map (·.index)).Nodup
    ∧ ∀ i : Nat, i ∈ (a.add b).qubits.map (·.index) ↔
        (i ∈ a.qubits.map (·.index) ∨ i ∈ b.qubits.map (·.index)) := by
  have hmap : ((a.add b).qubits.map (·.index)) =
      (a.qubits.map (·.index) ++ b.qubits.map (·.index)).dedup := by
    simp only [Circuit.add, List.map_map]
    exact List.map_id _
  refine ⟨rfl, ?_, ?_⟩
  · rw [hmap]; exact List.nodup_dedup _
  · intro i
    rw [hmap]
    simp [List.mem_dedup]

/-- C5: `Circuit.evaluate` raises its warning exactly when the symbols map
mentions a symbol that is not among the circuit's symbolic parameters, and in
every case (warning or not) it completes, returning the circuit with the map
substituted into every gate and unmatched symbols ignored. -/
theorem evaluate_warns_iff_unknown_symbol (c : Circuit) (m : List (String × ℚ)) :
    ((c.evaluate m).1 = true ↔ ∃ s ∈ m.map Prod.fst, s ∉ c.symbolic_params)
    ∧ (c.evaluate m).2 =
      { name := c.name, qubits := c.qubits, qubitsRef := c.qubitsRef,
        info := c.info, infoRef := c.infoRef,
        gates := c.gates.map (Gate.evaluate · m) } := by
  refine ⟨?_, rfl⟩
  simp [Circuit.evaluate]

/-- C6: the circuit returned by `evaluate` keeps the receiver's name, shares
the receiver's qubit list and info dictionary by reference (the reference
tokens are preserved along with the values), and only its gate list is newly
built (each gate evaluated under the map). -/
theorem evaluate_shares_qubits_and_info (c : Circuit) (m : List (String × ℚ)) :
    (c.evaluate m).2.name = c.name
    ∧ (c.evaluate m).2.qubits = c.qubits
    ∧ (c.evaluate m).2.qubitsRef = c.qubitsRef
    ∧ (c.evaluate m).2.info = c.info
    ∧ (c.evaluate m).2.infoRef = c.infoRef
    ∧ (c.evaluate m).2.gates = c.gates.map (Gate.evaluate · m) :=
  ⟨rfl, rfl, rfl, rfl, rfl, rfl⟩

/-- C7: a two-child native `Add` in which exactly the second child is a
negation converts to `FunctionCall(sub, (minuend, subtrahend))` in the
original left-to-right order; in particular `1 - x`, arriving as
`Add(1, Mul(-1, x))`, converts to `sub(1, x)`, while the plain sum `x + y`
converts to `add`, never `sub`. -/
theorem tree_builder_sub_detection :
    (∀ a c : SExpr, a.is_negation = false →
        expression_tree_from_sympy (.addN [a, .mulN [.intLit (-1), c]]) =
          .call "sub" [expression_tree_from_sympy a, expression_tree_from_sympy c])
    ∧ expression_tree_from_sympy
        (.addN [.intLit 1, .mulN [.intLit (-1), .sym "x"]]) =
        .call "sub" [.lit 1, .sym "x"]
    ∧ expression_tree_from_sympy (.addN [.sym "x", .sym "y"]) =
        .call "add" [.sym "x", .sym "y"] := by
  refine ⟨?_, ?_, ?_⟩
  · intro a c ha
    have hb : (SExpr.mulN [.intLit (-1), c]).is_negation = true := rfl
    have hs : (SExpr.mulN [.intLit (-1), c]).strip_negation = c := rfl
    simp [expression_tree_from_sympy, hb, ha, hs]
  · simp [expression_tree_from_sympy, SExpr.is_negation, SExpr.strip_negation]
  · simp [expression_tree_from_sympy, SExpr.is_negation, SExpr.strip_negation]

/-- C7 witness: the sub-detection theorem applied at the concrete node
`Add(2, Mul(-1, z))`. -/
theorem tree_builder_sub_detection_witness :
    SExpr.is_negation (.intLit 2) = false
    ∧ expression_tree_from_sympy
        (.addN [.intLit 2, .mulN [.intLit (-1), .sym "z"]]) =
        .call "sub" [expression_tree_from_sympy (.intLit 2),
                     expression_tree_from_sympy (.sym "z")] :=
  ⟨rfl, tree_builder_sub_detection.1 (.intLit 2) (.sym "z") rfl⟩

/-- C8: evaluating `qubit_in_list` of `Circuit.from_cirq` at a line-qubit
operand against a seen list holding a grid qubit reaches the line-qubit
branch (whose guard tests the operand twice instead of the list element) and
fails with an `AttributeError` on `q.x` — not with the qubit-type-mismatch
`TypeError` the claim (and the surrounding code's intent) prescribes; in the
opposite direction the `TypeError` is raised as claimed. -/
theorem cirq_qubit_in_list_line_vs_grid :
    cirq_qubit_in_list (.line 0) [.grid 0 0] = .attributeError
    ∧ cirq_qubit_in_list (.line 0) [.grid 0 0] ≠ .typeMismatchError
    ∧ cirq_qubit_in_list (.grid 0 0) [.line 0] = .typeMismatchError := by
  decide

/-- C10: the sum of two circuits always carries the default name "Unnamed"
and a fresh info dictionary with label `None`, whatever the operands' names
and labels were, and every qubit of the sum is a newly constructed bare
`Qubit(index)` carrying no framework provenance. -/
theorem add_resets_name_label_and_qubit_info (a b : Circuit) :
    (a.add b).name = "Unnamed"
    ∧ (a.add b).info = ⟨Option.none⟩
    ∧ ∀ q ∈ (a.add b).qubits, q.info = QubitInfo.noProvenance := by
  refine ⟨rfl, rfl, ?_⟩
  intro q hq
  simp [Circuit.add] at hq
  obtain ⟨i, _, rfl⟩ := hq
  rfl

/-- Helper: one qubit survives a dictionary round trip unchanged. -/
theorem qubit_dict_roundtrip (q : Qubit) : Qubit.from_dict q.to_dict = q := rfl

/-- Helper: one gate parameter survives serialization (in stringified form)
followed by deserialization unchanged. -/
theorem param_dict_roundtrip (p : Param) :
    ParamSer.deserialize (Param.serialize true p) = p := by
  cases p <;> rfl

/-- Helper: a gate rebuilt from its dictionary compares equal (in the sense
of `Gate.__eq__`) to the original: the rebuilt operand qubits are bare
`Qubit(index)` objects, but the comparison is by string form, which only
shows the index. -/
theorem gate_dict_roundtrip (g : Gate) :
    Gate.gate_eq (Gate.from_dict (g.to_dict true)) g = true := by
  unfold Gate.gate_eq Gate.from_dict Gate.to_dict
  simp [List.map_map, Function.comp, Qubit.str, param_dict_roundtrip]
  rw [show ParamSer.deserialize ∘ Param.serialize true = id from
        funext param_dict_roundtrip,
      List.map_id]

/-- Helper: pairwise Boolean comparison along the zip of a mapped list with
the original holds whenever it holds pointwise. -/
theorem zip_map_all_of_pointwise {α : Type} (P : α → α → Bool) (F : α → α)
    (l : List α) (h : ∀ a ∈ l, P (F a) a = true) :
    ((l.map F).zip l).all (fun p => P p.1 p.2) = true := by
  induction l with
  | nil => rfl
  | cons x xs ih => simp_all

/-- C1: a circuit whose gates all come from the COMMON catalog and carry only
numeric parameters is reconstructed by `Circuit.from_dict (c.to_dict())` up
to the structural circuit equality of `Circuit.__eq__` (equal name, equal
qubit sequence by string form, equal gate sequence pairwise in order). -/
theorem from_dict_to_dict_roundtrip (c : Circuit)
    (_h : ∀ g ∈ c.gates, g.name ∈ COMMON_GATES ∧ ∀ p ∈ g.params, p.is_numeric = true) :
    Circuit.circuit_eq (Circuit.from_dict (c.to_dict true)) c = true := by
  have hq : (Circuit.from_dict (c.to_dict true)).qubits =
      c.qubits.map (fun q => Qubit.from_dict q.to_dict) := by
    simp [Circuit.from_dict, Circuit.to_dict, List.map_map, Function.comp]
  have hg : (Circuit.from_dict (c.to_dict true)).gates =
      c.gates.map (fun g => Gate.from_dict (g.to_dict true)) := by
    simp [Circuit.from_dict, Circuit.to_dict, List.map_map, Function.comp]
  unfold Circuit.circuit_eq
  rw [hq, hg]
  have hname : (Circuit.from_dict (c.to_dict true)).name = c.name := rfl
  simp only [hname, Bool.and_eq_true, beq_iff_eq, List.length_map]
  refine ⟨⟨⟨⟨trivial, trivial⟩, ?_⟩, trivial⟩, ?_⟩
  · have := zip_map_all_of_pointwise
      (fun q1 q2 => Qubit.str q1 == Qubit.str q2)
      (fun q => Qubit.from_dict q.to_dict) c.qubits
      (fun q _ => by simp [qubit_dict_roundtrip])
    simpa using this
  · have := zip_map_all_of_pointwise Gate.gate_eq
      (fun g => Gate.from_dict (g.to_dict true)) c.gates
      (fun g _ => gate_dict_roundtrip g)
    simpa using this

/-- C1 witness: the round trip at a concrete two-gate circuit imported from
pyquil (provenance-carrying qubits, COMMON gates, numeric parameters). -/
theorem from_dict_to_dict_roundtrip_witness :
    (∀ g ∈ ({ name := "bell",
              gates := [⟨"H", [⟨0, .pyquil 0⟩], []⟩,
                        ⟨"RZ", [⟨0, .pyquil 0⟩, ⟨1, .pyquil 1⟩], [.num (1/2)]⟩],
              qubits := [⟨0, .pyquil 0⟩, ⟨1, .pyquil 1⟩],
              info := ⟨some "pyquil"⟩ } : Circuit).gates,
        g.name ∈ COMMON_GATES ∧ ∀ p ∈ g.params, p.is_numeric = true)
    ∧ Circuit.circuit_eq
        (Circuit.from_dict
          (Circuit.to_dict
            { name := "bell",
              gates := [⟨"H", [⟨0, .pyquil 0⟩], []⟩,
                        ⟨"RZ", [⟨0, .pyquil 0⟩, ⟨1, .pyquil 1⟩], [.num (1/2)]⟩],
              qubits := [⟨0, .pyquil 0⟩, ⟨1, .pyquil 1⟩],
              info := ⟨some "pyquil"⟩ } true))
        { name := "bell",
          gates := [⟨"H", [⟨0, .pyquil 0⟩], []⟩,
                    ⟨"RZ", [⟨0, .pyquil 0⟩, ⟨1, .pyquil 1⟩], [.num (1/2)]⟩],
          qubits := [⟨0, .pyquil 0⟩, ⟨1, .pyquil 1⟩],
          info := ⟨some "pyquil"⟩ } = true :=
  ⟨by decide, from_dict_to_dict_roundtrip _ (by decide)⟩

/-- C9 counterexample: the universal "each custom-gate definition is
registered at most once per output program" fails — the `XX` branch of
`add_gate_to_pyquil_program` registers its definition unconditionally, so
exporting a circuit with two `XX` applications registers the `XX` definition
twice. -/
theorem xx_def_registered_twice :
    ¬ (∀ p : PyquilProgram,
        ({ gates := [⟨"XX", [{ index := 0 }, { index := 1 }], [.num 1]⟩,
                     ⟨"XX", [{ index := 0 }, { index := 1 }], [.num 1]⟩] } :
            Circuit).to_pyquil = Except.ok p →
        p.defined_gates.count "XX" ≤ 1) := by
  intro h
  have h2 := h ⟨["XX", "XX"], [],
                [.gateApp "XX" [.num 1] [0, 1], .gateApp "XX" [.num 1] [0, 1]]⟩ rfl
  simp at h2

/-- C9 amended: only the `U1ex` (and `U2ex`) branches check the program's
already-registered definitions before re-adding; for `U1ex` the registration
is idempotent — adding a `U1ex` gate to any program leaves exactly
`max(previous count, 1)` registered `U1ex` definitions — so exporting two
`U1ex` applications in one circuit registers the `U1ex` definition exactly
once.  (The remaining UNIQUE gates re-register their definitions on every
application, as the counterexample shows.) -/
theorem u1ex_def_registered_once :
    (∀ (p : PyquilProgram) (g : Gate), g.name = "U1ex" →
        (add_gate_to_pyquil_program p g).map (fun q => q.defined_gates.count "U1ex")
          = Except.ok (max (p.defined_gates.count "U1ex") 1))
    ∧ (∀ g1 g2 : Gate, g1.name = "U1ex" → g2.name = "U1ex" →
        (({ gates := [g1, g2] } : Circuit).to_pyquil).map
            (fun q => q.defined_gates.count "U1ex")
          = Except.ok 1) := by
  have key : ∀ (p : PyquilProgram) (g : Gate), g.name = "U1ex" →
      (add_gate_to_pyquil_program p g).map (fun q => q.defined_gates.count "U1ex")
        = Except.ok (max (p.defined_gates.count "U1ex") 1) := by
    intro p g hg
    by_cases hmem : "U1ex" ∈ p.defined_gates
    · have hcount : 0 < p.defined_gates.count "U1ex" :=
        List.count_pos_iff.mpr hmem
      simp [add_gate_to_pyquil_program, hg, COMMON_GATES, UNIQUE_GATES, hmem,
            PyquilProgram.addInstr, Except.map, Nat.max_eq_left hcount]
    · have hcount : p.defined_gates.count "U1ex" = 0 :=
        List.count_eq_zero_of_not_mem hmem
      simp [add_gate_to_pyquil_program, hg, COMMON_GATES, UNIQUE_GATES, hmem,
            PyquilProgram.addInstr, PyquilProgram.addDef, Except.map, hcount]
  refine ⟨key, ?_⟩
  intro g1 g2 h1 h2
  have k1 := key {} g1 h1
  obtain ⟨p1, e1, hc1⟩ : ∃ p1, add_gate_to_pyquil_program {} g1 = Except.ok p1
      ∧ p1.defined_gates.count "U1ex" = 1 := by
    cases e : add_gate_to_pyquil_program {} g1 with
    | error msg =>
        rw [e] at k1
        simp [Except.map] at k1
    | ok q =>
        rw [e] at k1
        simp [Except.map] at k1
        exact ⟨q, rfl, by simpa using k1⟩
  have k2 := key p1 g2 h2
  rw [hc1] at k2
  simpa [Circuit.to_pyquil, List.foldlM, e1] using k2

/-- C9 witness: the amended theorem applied to two concrete `U1ex` gate
applications on qubits (0, 1). -/
theorem u1ex_def_registered_once_witness :
    (({ gates := [⟨"U1ex", [{ index := 0 }, { index := 1 }], [.num 1, .num 2]⟩,
                  ⟨"U1ex", [{ index := 0 }, { index := 1 }], [.num 1, .num 2]⟩] } :
        Circuit).to_pyquil).map (fun q => q.defined_gates.count "U1ex")
      = Except.ok 1 :=
  u1ex_def_registered_once.2
    ⟨"U1ex", [{ index := 0 }, { index := 1 }], [.num 1, .num 2]⟩
    ⟨"U1ex", [{ index := 0 }, { index := 1 }], [.num 1, .num 2]⟩ rfl rfl

/-- Helper: deduplication-and-sharing follows from distinct indices plus
gate-operand membership. -/
theorem dedup_sharing_of_nodup {qubits : List TrackedQubit}
    {gates : List TrackedGate}
    (hnodup : (qubits.map (·.index)).Nodup)
    (hmem : ∀ tg ∈ gates, ∀ q ∈ tg.qubits, q ∈ qubits) :
    DedupSharing qubits gates := by
  refine ⟨hnodup, hmem, ?_⟩
  intro tg htg tg' htg' q hq q' hq' hidx
  exact List.inj_on_of_nodup_map hnodup (hmem tg htg q hq) (hmem tg' htg' q' hq') hidx

/-- Helper: one `from_pyquil` qubit resolution preserves the import
invariant, returns a qubit listed in the resulting state, only extends the
qubit and seen lists, leaves the gates untouched, and records the resolved
native index as seen. -/
theorem pyquil_resolve_qubit_spec (st : PyquilImportState) (i : Nat)
    (h : st.WF) :
    (pyquil_resolve_qubit st i).1.WF
    ∧ (pyquil_resolve_qubit st i).2 ∈ (pyquil_resolve_qubit st i).1.qubits
    ∧ (∃ l, (pyquil_resolve_qubit st i).1.qubits = st.qubits ++ l)
    ∧ (∃ l, (pyquil_resolve_qubit st i).1.seen = st.seen ++ l)
    ∧ (pyquil_resolve_qubit st i).1.gates = st.gates
    ∧ i ∈ (pyquil_resolve_qubit st i).1.seen := by
  obtain ⟨h1, h2, h3, h4⟩ := h
  by_cases hc : st.seen.contains i = true
  · have hmem : i ∈ st.seen := by simpa using hc
    have hex : ∃ q, q ∈ st.qubits ∧ (q.index == i) = true := by
      rw [← h1] at hmem
      obtain ⟨q, hq, hqi⟩ := List.mem_map.mp hmem
      exact ⟨q, hq, by simp [hqi]⟩
    have hsome : (st.qubits.find? (fun q => q.index == i)).isSome :=
      List.find?_isSome.mpr hex
    obtain ⟨v, hv⟩ := Option.isSome_iff_exists.mp hsome
    have hvmem : v ∈ st.qubits := List.mem_of_find?_eq_some hv
    unfold pyquil_resolve_qubit
    rw [if_pos hc, hv]
    exact ⟨⟨h1, h2, h3, h4⟩, by simpa using hvmem, ⟨[], by simp⟩, ⟨[], by simp⟩,
           rfl, hmem⟩
  · have hnmem : i ∉ st.seen := by simpa using hc
    unfold pyquil_resolve_qubit
    rw [if_neg hc]
    refine ⟨⟨?_, ?_, ?_, ?_⟩, by simp, ⟨[⟨st.fresh, i⟩], rfl⟩, ⟨[i], rfl⟩, rfl,
            by simp⟩
    · simp [h1]
    · simp [List.nodup_append, h2, hnmem]
    · simp [h3, List.range_succ]
    · intro g hg q hq
      exact List.mem_append_left _ (h4 g hg q hq)

/-- Helper: the operand-resolution fold of one `from_pyquil` gate iteration
preserves the invariant, extends the state monotonically, and resolves every
operand to a listed qubit and every operand index into the seen list. -/
theorem pyquil_qubit_fold_spec (qs : List Nat) :
    ∀ (st : PyquilImportState) (acc : List TrackedQubit), st.WF →
      (∀ q ∈ acc, q ∈ st.qubits) →
      (qs.foldl pyquil_qubit_step (st, acc)).1.WF
      ∧ (∃ l, (qs.foldl pyquil_qubit_step (st, acc)).1.qubits = st.qubits ++ l)
      ∧ (∃ l, (qs.foldl pyquil_qubit_step (st, acc)).1.seen = st.seen ++ l)
      ∧ (qs.foldl pyquil_qubit_step (st, acc)).1.gates = st.gates
      ∧ (∀ q ∈ (qs.foldl pyquil_qubit_step (st, acc)).2,
          q ∈ (qs.foldl pyquil_qubit_step (st, acc)).1.qubits)
      ∧ ∀ j ∈ qs, j ∈ (qs.foldl pyquil_qubit_step (st, acc)).1.seen := by
  induction qs with
  | nil =>
      intro st acc hWF hacc
      exact ⟨hWF, ⟨[], by simp⟩, ⟨[], by simp⟩, rfl, hacc, by simp⟩
  | cons j rest ih =>
      intro st acc hWF hacc
      obtain ⟨w1, w2, ⟨l1, e1⟩, ⟨l2, e2⟩, w4, w6⟩ :=
        pyquil_resolve_qubit_spec st j hWF
      have hacc' : ∀ q ∈ acc ++ [(pyquil_resolve_qubit st j).2],
          q ∈ (pyquil_resolve_qubit st j).1.qubits := by
        intro q hq
        rcases List.mem_append.mp hq with hh | hh
        · rw [e1]
          exact List.mem_append_left _ (hacc q hh)
        · have hq2 : q = (pyquil_resolve_qubit st j).2 := by simpa using hh
          rw [hq2]
          exact w2
      obtain ⟨z1, ⟨m1, f1⟩, ⟨m2, f2⟩, z4, z5, z6⟩ :=
        ih (pyquil_resolve_qubit st j).1 (acc ++ [(pyquil_resolve_qubit st j).2])
          w1 hacc'
      rw [List.foldl_cons]
      have hstep : pyquil_qubit_step (st, acc) j =
          ((pyquil_resolve_qubit st j).1,
           acc ++ [(pyquil_resolve_qubit st j).2]) := rfl
      rw [hstep]
      refine ⟨z1, ⟨l1 ++ m1, by rw [f1, e1, List.append_assoc]⟩,
              ⟨l2 ++ m2, by rw [f2, e2, List.append_assoc]⟩,
              by rw [z4, w4], z5, ?_⟩
      intro k hk
      rcases List.mem_cons.mp hk with hh | hh
      · subst hh
        rw [f2]
        exact List.mem_append_left _ w6
      · exact z6 k hh

/-- Helper: one `from_pyquil` gate iteration preserves the invariant and
extends the state monotonically, recording every operand index as seen. -/
theorem pyquil_import_gate_spec (st : PyquilImportState) (g : PyquilGateInstr)
    (h : st.WF) :
    (pyquil_import_gate st g).WF
    ∧ (∃ l, (pyquil_import_gate st g).qubits = st.qubits ++ l)
    ∧ (∃ l, (pyquil_import_gate st g).seen = st.seen ++ l)
    ∧ ∀ j ∈ g.qubits, j ∈ (pyquil_import_gate st g).seen := by
  obtain ⟨z1, zq, zs, z4, z5, z6⟩ := pyquil_qubit_fold_spec g.qubits st [] h (by simp)
  obtain ⟨zw1, zw2, zw3, zw4⟩ := z1
  unfold pyquil_import_gate
  refine ⟨⟨zw1, zw2, zw3, ?_⟩, by simpa using zq, by simpa using zs,
          by simpa using z6⟩
  intro tg htg q hq
  rcases List.mem_append.mp htg with hh | hh
  · exact zw4 tg hh q hq
  · have htg2 : tg = ⟨g.name, (g.qubits.foldl pyquil_qubit_step (st, [])).2⟩ := by
      simpa using hh
    rw [htg2] at hq
    exact z5 q hq

/-- Helper: the `from_pyquil` import loop starting from any invariant-holding
state preserves the invariant and records every program operand index. -/
theorem from_pyquil_foldl_spec (prog : List PyquilGateInstr) :
    ∀ st : PyquilImportState, st.WF →
      (prog.foldl pyquil_import_gate st).WF
      ∧ (∃ l, (prog.foldl pyquil_import_gate st).seen = st.seen ++ l)
      ∧ ∀ g ∈ prog, ∀ j ∈ g.qubits,
          j ∈ (prog.foldl pyquil_import_gate st).seen := by
  induction prog with
  | nil =>
      intro st h
      exact ⟨h, ⟨[], by simp⟩, by simp⟩
  | cons g rest ih =>
      intro st h
      obtain ⟨w1, _, ⟨l2, e2⟩, w5⟩ := pyquil_import_gate_spec st g h
      obtain ⟨z1, ⟨m2, f2⟩, z3⟩ := ih (pyquil_import_gate st g) w1
      rw [List.foldl_cons]
      refine ⟨z1, ⟨l2 ++ m2, by rw [f2, e2, List.append_assoc]⟩, ?_⟩
      intro g' hg' j hj
      rcases List.mem_cons.mp hg' with hh | hh
      · subst hh
        rw [f2]
        exact List.mem_append_left _ (w5 j hj)
      · exact z3 g' hh j hj

/-- Helper: the empty import state satisfies the invariant. -/
theorem pyquil_empty_state_WF : PyquilImportState.WF {} :=
  ⟨rfl, List.nodup_nil, rfl, by simp⟩

/-- Helper: one `from_qiskit` qubit resolution, for a native qubit drawn from
a universe `U` whose members have pairwise distinct slot indices, preserves
the import invariant relative to `U`, returns a listed qubit, extends the
state monotonically, leaves gates untouched, and records the native qubit as
seen. -/
theorem qiskit_resolve_qubit_spec (U : List QiskitQubit)
    (hInj : ∀ a ∈ U, ∀ b ∈ U, a.idx = b.idx → a = b)
    (st : QiskitImportState) (nq : QiskitQubit) (hU : nq ∈ U)
    (h : st.WF U) :
    (qiskit_resolve_qubit st nq).1.WF U
    ∧ (qiskit_resolve_qubit st nq).2 ∈ (qiskit_resolve_qubit st nq).1.qubits
    ∧ (∃ l, (qiskit_resolve_qubit st nq).1.qubits = st.qubits ++ l)
    ∧ (∃ l, (qiskit_resolve_qubit st nq).1.seen = st.seen ++ l)
    ∧ (qiskit_resolve_qubit st nq).1.gates = st.gates
    ∧ nq ∈ (qiskit_resolve_qubit st nq).1.seen := by
  obtain ⟨h1, h2, h3, h4, h5⟩ := h
  by_cases hc : st.seen.contains nq = true
  · have hmem : nq ∈ st.seen := by simpa using hc
    have hexidx : nq.idx ∈ st.qubits.map (·.index) := by
      rw [h1]
      exact List.mem_map.mpr ⟨nq, hmem, rfl⟩
    have hex : ∃ q, q ∈ st.qubits ∧ (q.index == nq.idx) = true := by
      obtain ⟨q, hq, hqi⟩ := List.mem_map.mp hexidx
      exact ⟨q, hq, by simp [hqi]⟩
    have hsome : (st.qubits.find? (fun q => q.index == nq.idx)).isSome :=
      List.find?_isSome.mpr hex
    obtain ⟨v, hv⟩ := Option.isSome_iff_exists.mp hsome
    have hvmem : v ∈ st.qubits := List.mem_of_find?_eq_some hv
    unfold qiskit_resolve_qubit
    rw [if_pos hc, hv]
    exact ⟨⟨h1, h2, h3, h4, h5⟩, by simpa using hvmem, ⟨[], by simp⟩,
           ⟨[], by simp⟩, rfl, hmem⟩
  · have hnmem : nq ∉ st.seen := by simpa using hc
    have hidxnew : nq.idx ∉ st.seen.map (·.idx) := by
      intro hbad
      obtain ⟨b, hb, hbidx⟩ := List.mem_map.mp hbad
      have : b = nq := hInj b (h5 b hb) nq hU hbidx
      exact hnmem (this ▸ hb)
    unfold qiskit_resolve_qubit
    rw [if_neg hc]
    refine ⟨⟨?_, ?_, ?_, ?_, ?_⟩, by simp, ⟨[⟨st.fresh, nq.idx⟩], rfl⟩,
            ⟨[nq], rfl⟩, rfl, by simp⟩
    · simp [h1]
    · simp [List.nodup_append, h2, hidxnew]
    · simp [h3, List.range_succ]
    · intro g hg q hq
      exact List.mem_append_left _ (h4 g hg q hq)
    · intro b hb
      rcases List.mem_append.mp hb with hh | hh
      · exact h5 b hh
      · have : b = nq := by simpa using hh
        rw [this]
        exact hU

/-- Helper: the operand-resolution fold of one `from_qiskit` instruction. -/
theorem qiskit_qubit_fold_spec (U : List QiskitQubit)
    (hInj : ∀ a ∈ U, ∀ b ∈ U, a.idx = b.idx → a = b)
    (qs : List QiskitQubit) :
    ∀ (st : QiskitImportState) (acc : List TrackedQubit),
      (∀ nq ∈ qs, nq ∈ U) → st.WF U →
      (∀ q ∈ acc, q ∈ st.qubits) →
      (qs.foldl qiskit_qubit_step (st, acc)).1.WF U
      ∧ (∃ l, (qs.foldl qiskit_qubit_step (st, acc)).1.qubits = st.qubits ++ l)
      ∧ (∃ l, (qs.foldl qiskit_qubit_step (st, acc)).1.seen = st.seen ++ l)
      ∧ (qs.foldl qiskit_qubit_step (st, acc)).1.gates = st.gates
      ∧ (∀ q ∈ (qs.foldl qiskit_qubit_step (st, acc)).2,
          q ∈ (qs.foldl qiskit_qubit_step (st, acc)).1.qubits)
      ∧ ∀ nq ∈ qs, nq ∈ (qs.foldl qiskit_qubit_step (st, acc)).1.seen := by
  induction qs with
  | nil =>
      intro st acc _ hWF hacc
      exact ⟨hWF, ⟨[], by simp⟩, ⟨[], by simp⟩, rfl, hacc, by simp⟩
  | cons j rest ih =>
      intro st acc hqs hWF hacc
      obtain ⟨w1, w2, ⟨l1, e1⟩, ⟨l2, e2⟩, w4, w6⟩ :=
        qiskit_resolve_qubit_spec U hInj st j (hqs j (by simp)) hWF
      have hacc' : ∀ q ∈ acc ++ [(qiskit_resolve_qubit st j).2],
          q ∈ (qiskit_resolve_qubit st j).1.qubits := by
        intro q hq
        rcases List.mem_append.mp hq with hh | hh
        · rw [e1]
          exact List.mem_append_left _ (hacc q hh)
        · have hq2 : q = (qiskit_resolve_qubit st j).2 := by simpa using hh
          rw [hq2]
          exact w2
      obtain ⟨z1, ⟨m1, f1⟩, ⟨m2, f2⟩, z4, z5, z6⟩ :=
        ih (qiskit_resolve_qubit st j).1 (acc ++ [(qiskit_resolve_qubit st j).2])
          (fun nq hnq => hqs nq (by simp [hnq])) w1 hacc'
      rw [List.foldl_cons]
      have hstep : qiskit_qubit_step (st, acc) j =
          ((qiskit_resolve_qubit st j).1,
           acc ++ [(qiskit_resolve_qubit st j).2]) := rfl
      rw [hstep]
      refine ⟨z1, ⟨l1 ++ m1, by rw [f1, e1, List.append_assoc]⟩,
              ⟨l2 ++ m2, by rw [f2, e2, List.append_assoc]⟩,
              by rw [z4, w4], z5, ?_⟩
      intro k hk
      rcases List.mem_cons.mp hk with hh | hh
      · subst hh
        rw [f2]
        exact List.mem_append_left _ w6
      · exact z6 k hh

/-- Helper: one `from_qiskit` instruction iteration. -/
theorem qiskit_import_gate_spec (U : List QiskitQubit)
    (hInj : ∀ a ∈ U, ∀ b ∈ U, a.idx = b.idx → a = b)
    (st : QiskitImportState) (g : QiskitInstr)
    (hg : ∀ nq ∈ g.qubits, nq ∈ U) (h : st.WF U) :
    (qiskit_import_gate st g).WF U
    ∧ (∃ l, (qiskit_import_gate st g).qubits = st.qubits ++ l)
    ∧ (∃ l, (qiskit_import_gate st g).seen = st.seen ++ l)
    ∧ ∀ nq ∈ g.qubits, nq ∈ (qiskit_import_gate st g).seen := by
  obtain ⟨z1, zq, zs, z4, z5, z6⟩ :=
    qiskit_qubit_fold_spec U hInj g.qubits st [] hg h (by simp)
  obtain ⟨zw1, zw2, zw3, zw4, zw5⟩ := z1
  unfold qiskit_import_gate
  refine ⟨⟨zw1, zw2, zw3, ?_, zw5⟩, by simpa using zq, by simpa using zs,
          by simpa using z6⟩
  intro tg htg q hq
  rcases List.mem_append.mp htg with hh | hh
  · exact zw4 tg hh q hq
  · have htg2 : tg = ⟨g.name, (g.qubits.foldl qiskit_qubit_step (st, [])).2⟩ := by
      simpa using hh
    rw [htg2] at hq
    exact z5 q hq

/-- Helper: the `from_qiskit` import loop. -/
theorem from_qiskit_foldl_spec (U : List QiskitQubit)
    (hInj : ∀ a ∈ U, ∀ b ∈ U, a.idx = b.idx → a = b)
    (circ : List QiskitInstr) :
    ∀ st : QiskitImportState,
      (∀ g ∈ circ, ∀ nq ∈ g.qubits, nq ∈ U) → st.WF U →
      (circ.foldl qiskit_import_gate st).WF U
      ∧ (∃ l, (circ.foldl qiskit_import_gate st).seen = st.seen ++ l)
      ∧ ∀ g ∈ circ, ∀ nq ∈ g.qubits,
          nq ∈ (circ.foldl qiskit_import_gate st).seen := by
  induction circ with
  | nil =>
      intro st _ h
      exact ⟨h, ⟨[], by simp⟩, by simp⟩
  | cons g rest ih =>
      intro st hcirc h
      obtain ⟨w1, _, ⟨l2, e2⟩, w5⟩ :=
        qiskit_import_gate_spec U hInj st g (hcirc g (by simp)) h
      obtain ⟨z1, ⟨m2, f2⟩, z3⟩ :=
        ih (qiskit_import_gate st g) (fun g' hg' => hcirc g' (by simp [hg'])) w1
      rw [List.foldl_cons]
      refine ⟨z1, ⟨l2 ++ m2, by rw [f2, e2, List.append_assoc]⟩, ?_⟩
      intro g' hg' nq hnq
      rcases List.mem_cons.mp hg' with hh | hh
      · subst hh
        rw [f2]
        exact List.mem_append_left _ (w5 nq hnq)
      · exact z3 g' hh nq hnq

/-- Helper: the empty qiskit import state satisfies the invariant relative to
any universe. -/
theorem qiskit_empty_state_WF (U : List QiskitQubit) :
    QiskitImportState.WF U ({} : QiskitImportState) :=
  ⟨rfl, List.nodup_nil, rfl, by simp, by simp⟩

/-- C3 counterexample: importing the qiskit circuit `h q[0]; x r[0]; x r[0]`
(two one-qubit registers, so both native qubits have slot index 0, and the
same physical qubit `r[0]` occurs in two instructions) yields a circuit with
TWO canonical qubits of index 0, and the two operand positions for `r[0]`
reference different canonical qubit instances — the second occurrence is
looked up by `info["num"] == qubit.index` and resolves to the canonical qubit
created for `q[0]`. -/
theorem qiskit_two_register_dedup_fails :
    ¬ (((from_qiskit
           [⟨"h", [⟨0, 0⟩]⟩, ⟨"x", [⟨1, 0⟩]⟩, ⟨"x", [⟨1, 0⟩]⟩]).qubits.map
          (·.index)).Nodup
       ∧ ∀ tg ∈ (from_qiskit
             [⟨"h", [⟨0, 0⟩]⟩, ⟨"x", [⟨1, 0⟩]⟩, ⟨"x", [⟨1, 0⟩]⟩]).gates,
           ∀ tg' ∈ (from_qiskit
             [⟨"h", [⟨0, 0⟩]⟩, ⟨"x", [⟨1, 0⟩]⟩, ⟨"x", [⟨1, 0⟩]⟩]).gates,
           ∀ q ∈ tg.qubits, ∀ q' ∈ tg'.qubits,
             q.index = q'.index → q = q') := by
  decide

/-- C3 amended: for the pyquil importer the claim holds for every program —
the imported circuit has exactly one canonical Qubit per native qubit index
and every gate operand position references that same allocated instance; for
the qiskit importer the same holds provided the circuit's native qubits are
uniquely identified by their slot index (e.g. a single quantum register), the
counterexample showing that a multi-register circuit with repeated slot
indices violates both parts. -/
theorem importer_qubit_dedup :
    (∀ prog : List PyquilGateInstr,
        DedupSharing (from_pyquil prog).qubits (from_pyquil prog).gates
        ∧ ∀ g ∈ prog, ∀ j ∈ g.qubits,
            ∃! q : TrackedQubit, q ∈ (from_pyquil prog).qubits ∧ q.index = j)
    ∧ ∀ circ : List QiskitInstr,
        (∀ a ∈ qiskit_circuit_qubits circ, ∀ b ∈ qiskit_circuit_qubits circ,
            a.idx = b.idx → a = b) →
        DedupSharing (from_qiskit circ).qubits (from_qiskit circ).gates
        ∧ ∀ g ∈ circ, ∀ nq ∈ g.qubits,
            ∃! q : TrackedQubit,
              q ∈ (from_qiskit circ).qubits ∧ q.index = nq.idx := by
  constructor
  · intro prog
    obtain ⟨⟨h1, h2, h3, h4⟩, _, hcov⟩ :=
      from_pyquil_foldl_spec prog {} pyquil_empty_state_WF
    have hnodup : ((from_pyquil prog).qubits.map (·.index)).Nodup := by
      unfold from_pyquil
      rw [h1]
      exact h2
    refine ⟨dedup_sharing_of_nodup hnodup h4, ?_⟩
    intro g hg j hj
    have hjseen := hcov g hg j hj
    rw [← h1] at hjseen
    obtain ⟨q, hq, hqi⟩ := List.mem_map.mp hjseen
    refine ⟨q, ⟨hq, hqi⟩, ?_⟩
    intro y hy
    exact List.inj_on_of_nodup_map hnodup hy.1 hq (hy.2.trans hqi.symm)
  · intro circ hInj
    have hUall : ∀ g ∈ circ, ∀ nq ∈ g.qubits, nq ∈ qiskit_circuit_qubits circ := by
      intro g hg nq hnq
      unfold qiskit_circuit_qubits
      exact List.mem_flatten.mpr ⟨g.qubits, List.mem_map.mpr ⟨g, hg, rfl⟩, hnq⟩
    obtain ⟨⟨h1, h2, h3, h4, _⟩, _, hcov⟩ :=
      from_qiskit_foldl_spec (qiskit_circuit_qubits circ) hInj circ {} hUall
        (qiskit_empty_state_WF _)
    have hnodup : ((from_qiskit circ).qubits.map (·.index)).Nodup := by
      unfold from_qiskit
      rw [h1]
      exact h2
    refine ⟨dedup_sharing_of_nodup hnodup h4, ?_⟩
    intro g hg nq hnq
    have hseen := hcov g hg nq hnq
    have hjseen : nq.idx ∈ (from_qiskit circ).qubits.map (·.index) := by
      unfold from_qiskit
      rw [h1]
      exact List.mem_map.mpr ⟨nq, hseen, rfl⟩
    obtain ⟨q, hq, hqi⟩ := List.mem_map.mp hjseen
    refine ⟨q, ⟨hq, hqi⟩, ?_⟩
    intro y hy
    exact List.inj_on_of_nodup_map hnodup hy.1 hq (hy.2.trans hqi.symm)

/-- C3 witness: the amended theorem's qiskit part applied to a concrete
single-register two-instruction circuit, whose native qubits have distinct
slot indices. -/
theorem importer_qubit_dedup_witness :
    (∀ a ∈ qiskit_circuit_qubits [⟨"cx", [⟨0, 0⟩, ⟨0, 1⟩]⟩, ⟨"h", [⟨0, 0⟩]⟩],
       ∀ b ∈ qiskit_circuit_qubits [⟨"cx", [⟨0, 0⟩, ⟨0, 1⟩]⟩, ⟨"h", [⟨0, 0⟩]⟩],
         a.idx = b.idx → a = b)
    ∧ DedupSharing
        (from_qiskit [⟨"cx", [⟨0, 0⟩, ⟨0, 1⟩]⟩, ⟨"h", [⟨0, 0⟩]⟩]).qubits
        (from_qiskit [⟨"cx", [⟨0, 0⟩, ⟨0, 1⟩]⟩, ⟨"h", [⟨0, 0⟩]⟩]).gates :=
  ⟨by decide,
   (importer_qubit_dedup.2 [⟨"cx", [⟨0, 0⟩, ⟨0, 1⟩]⟩, ⟨"h", [⟨0, 0⟩]⟩]
      (by decide)).1⟩

end ZQuantum
